import Mathlib

/-!
A shallow embedding of the cockroach-fuse filesystem (src/sql.rs and
src/fs.rs).  The database state is modelled as lists of rows; each SQL
routine from sql.rs becomes a pure function from a `DB` to a result and a
new `DB`, with transaction rollback expressed by returning the input
state.  Timestamp columns (atime, mtime, ctime, crtime) are omitted: no
verified property mentions them.  Byte payloads are `List Nat`; the
text-cast splice in the UPDATE branch of write_data is modelled as the
byte splice it denotes.  Machine integers (i64, u16, u32) are modelled as
`Nat` with explicit `% 2 ^ w` where truncation matters (mode words);
offsets handed over by the kernel are non-negative.
-/

namespace CockroachFuse

/-- The seven file kinds (the fuse crate's `FileType`). -/
inductive FileType where
  | NamedPipe
  | CharDevice
  | BlockDevice
  | Directory
  | RegularFile
  | Symlink
  | Socket
deriving DecidableEq

/-- A row of the `inodes` table / the fuse crate's `FileAttr`
(timestamp columns omitted). -/
structure FileAttr where
  ino : Nat
  size : Nat
  blocks : Nat
  kind : FileType
  perm : Nat
  nlink : Nat
  uid : Nat
  gid : Nat
  rdev : Nat
  flags : Nat
deriving DecidableEq

/-- A row of the `dir_entries` table. -/
structure DirEnt where
  dir_ino : Nat
  child_name : String
  child_kind : FileType
  child_ino : Nat
deriving DecidableEq

/-- A row of the `blocks` table. -/
structure Block where
  file_ino : Nat
  block_idx : Nat
  bytes : List Nat
deriving DecidableEq

/-- The database state: the three tables plus the `inode_alloc` sequence
(`next_ino` is the value the next `nextval` call returns) and a flag
recording whether the schema objects exist (`CREATE ... IF NOT EXISTS`). -/
structure DB where
  schema : Bool
  next_ino : Nat
  inodes : List FileAttr
  dir_entries : List DirEnt
  blocks : List Block
deriving DecidableEq

def DB.empty : DB := ⟨false, 1, [], [], []⟩

/-- Result of a SQL routine: `err` is a database / constraint error
(`Err` in Rust, mapped to ECONNREFUSED by the handlers), `absent` is
`Ok(None)`, `ok` is `Ok(Some _)`. -/
inductive SqlRes (α : Type) where
  | err : SqlRes α
  | absent : SqlRes α
  | ok : α → SqlRes α
deriving DecidableEq

/-- `DATA_BLOCK_SIZE` from sql.rs. -/
def DATA_BLOCK_SIZE : Nat := 1024

/-- `create_schema`: all statements are `CREATE ... IF NOT EXISTS`, so a
second run changes nothing; the first run creates the empty tables and
the sequence starting at 1. -/
def create_schema (db : DB) : DB :=
  if db.schema then db
  else { schema := true, next_ino := 1, inodes := [], dir_entries := [], blocks := [] }

/-- `SELECT * FROM inodes WHERE ino = $1` (first row, if any). -/
def findInode (db : DB) (ino : Nat) : Option FileAttr :=
  db.inodes.find? (fun r => r.ino == ino)

/-- `lookup_inode` from sql.rs. -/
def lookup_inode (db : DB) (ino : Nat) : Option FileAttr :=
  findInode db ino

/-- `SELECT * FROM dir_entries WHERE dir_ino = $1 AND child_name = $2`. -/
def findDirEnt (db : DB) (parent : Nat) (name : String) : Option DirEnt :=
  db.dir_entries.find? (fun e => e.dir_ino == parent && e.child_name == name)

/-- `lookup_dir_ent` from sql.rs: join of `inodes` and `dir_entries` on
`ino = child_ino`, filtered by `(dir_ino, child_name)`. -/
def lookup_dir_ent (db : DB) (parent : Nat) (name : String) : Option FileAttr :=
  match findDirEnt db parent name with
  | none => none
  | some e => findInode db e.child_ino

/-- `create_inode` from sql.rs: INSERT a fresh inode row (defaults:
size 0, blocks 0, perm 493 = 0o755, nlink 1, uid 501, gid 20, flags 0)
with the given kind and rdev; when `parent` is not the sentinel 0, also
INSERT the directory entry.  The dir_entries insert fails (SQL error)
when the parent inode does not exist (foreign key on `dir_ino`) or a row
with the same `(dir_ino, child_name)` key exists (primary key). -/
def create_inode (db : DB) (parent : Nat) (name : String) (ft : FileType) (rdev : Nat) :
    SqlRes (FileAttr × DB) :=
  let attr : FileAttr :=
    { ino := db.next_ino, size := 0, blocks := 0, kind := ft, perm := 493,
      nlink := 1, uid := 501, gid := 20, rdev := rdev, flags := 0 }
  let db1 : DB := { db with next_ino := db.next_ino + 1, inodes := db.inodes ++ [attr] }
  if parent == 0 then
    SqlRes.ok (attr, db1)
  else if (findInode db1 parent).isNone then
    SqlRes.err
  else if (findDirEnt db1 parent name).isSome then
    SqlRes.err
  else
    SqlRes.ok (attr,
      { db1 with dir_entries := db1.dir_entries ++ [⟨parent, name, ft, attr.ino⟩] })

/-- `update_nlink` from sql.rs: `UPDATE inodes SET nlink = $1 WHERE ino = $2`. -/
def update_nlink (db : DB) (ino : Nat) (nlink : Nat) : DB :=
  { db with inodes := db.inodes.map (fun r =>
      if r.ino == ino then { r with nlink := nlink } else r) }

/-- `unlink` from sql.rs: locate the entry via lookup_dir_ent; DELETE the
entry; decrement nlink; at zero DELETE the inode row (the ON DELETE
CASCADE on `blocks.file_ino` removes its blocks), otherwise UPDATE nlink. -/
def unlink (db : DB) (parent : Nat) (name : String) : SqlRes (Unit × DB) :=
  match lookup_dir_ent db parent name with
  | none => SqlRes.absent
  | some inode =>
    let db1 : DB := { db with dir_entries := db.dir_entries.filter (fun e =>
        !(e.dir_ino == parent && e.child_name == name && e.child_ino == inode.ino)) }
    let newNlink := inode.nlink - 1
    if newNlink == 0 then
      SqlRes.ok ((),
        { db1 with inodes := db1.inodes.filter (fun r => !(r.ino == inode.ino)),
                   blocks := db1.blocks.filter (fun b => !(b.file_ino == inode.ino)) })
    else
      SqlRes.ok ((), update_nlink db1 inode.ino newNlink)

/-- `link` from sql.rs: load the inode; return absent if missing or not a
regular file; INSERT the new directory entry (errors on FK / PK
violation); increment nlink; return the refreshed attributes. -/
def link (db : DB) (ino : Nat) (parent : Nat) (newname : String) :
    SqlRes (FileAttr × DB) :=
  match lookup_inode db ino with
  | none => SqlRes.absent
  | some inode =>
    if inode.kind ≠ FileType.RegularFile then SqlRes.absent
    else if (findInode db parent).isNone then SqlRes.err
    else if (findDirEnt db parent newname).isSome then SqlRes.err
    else
      let db1 : DB :=
        { db with dir_entries := db.dir_entries ++ [⟨parent, newname, inode.kind, ino⟩] }
      let inode1 : FileAttr := { inode with nlink := inode.nlink + 1 }
      SqlRes.ok (inode1, update_nlink db1 ino inode1.nlink)

/-- `rename_dir_ent` from sql.rs: DELETE any row at
`(new_parent, new_name)`; UPDATE the row at `(parent, name)`; if the
UPDATE matched zero rows, roll back (the returned state is the input
state) and report `false`. -/
def rename_dir_ent (db : DB) (parent : Nat) (name : String)
    (new_parent : Nat) (new_name : String) : Bool × DB :=
  let db1 : DB := { db with dir_entries := db.dir_entries.filter (fun e =>
      !(e.dir_ino == new_parent && e.child_name == new_name)) }
  let num := (db1.dir_entries.filter (fun e =>
      e.dir_ino == parent && e.child_name == name)).length
  if num == 0 then
    (false, db)
  else
    (true, { db1 with dir_entries := db1.dir_entries.map (fun e =>
        if e.dir_ino == parent && e.child_name == name then
          { e with dir_ino := new_parent, child_name := new_name }
        else e) })

/-- `SELECT bytes FROM blocks WHERE file_ino = $1 AND block_idx = $2`. -/
def findBlock (db : DB) (ino : Nat) (idx : Nat) : Option Block :=
  db.blocks.find? (fun b => b.file_ino == ino && b.block_idx == idx)

/-- The schema default payload: `repeat(x'00', 1024)`. -/
def zeroBlock : List Nat := List.replicate DATA_BLOCK_SIZE 0

/-- `INSERT INTO blocks VALUES (ino, idx, bytes)`: errors (unique
violation) when a row with that key already exists. -/
def insertBlock (db : DB) (ino : Nat) (idx : Nat) (bytes : List Nat) : Option DB :=
  if (findBlock db ino idx).isSome then none
  else some { db with blocks := db.blocks ++ [⟨ino, idx, bytes⟩] }

/-- `UPDATE blocks SET bytes = ... WHERE file_ino = $4 AND block_idx = $5`. -/
def updateBlock (db : DB) (ino : Nat) (idx : Nat) (f : List Nat → List Nat) : DB :=
  { db with blocks := db.blocks.map (fun b =>
      if b.file_ino == ino && b.block_idx == idx then { b with bytes := f b.bytes } else b) }

/-- The in-place splice of write_data's UPDATE branch:
`substr(bytes, 1, off) || chunk || substr(bytes, off + len(chunk) + 1)`. -/
def spliceBlock (bytes : List Nat) (off : Nat) (chunk : List Nat) : List Nat :=
  bytes.take off ++ chunk ++ bytes.drop (off + chunk.length)

/-- The hole-fill loop of write_data: `for i in cur_blocks..before`
INSERT a default (all-zero) block at index `i`.  Arguments: first index
and number of blocks to insert. -/
def holeFill (db : DB) (ino : Nat) : Nat → Nat → Option DB
  | _, 0 => some db
  | i, n + 1 =>
    match insertBlock db ino i zeroBlock with
    | none => none
    | some db1 => holeFill db1 ino (i + 1) n

/-- `chunk_size` of one iteration of write_data's while loop:
`min(DATA_BLOCK_SIZE - cur_offset, len(data_left))` (written with the
source's comparison). -/
def chunkSize (cur_offset : Nat) (left : Nat) : Nat :=
  let avail := DATA_BLOCK_SIZE - cur_offset
  if left ≥ avail then avail else left

/-- One iteration of write_data's while loop: write
`chunkSize cur_offset len` bytes into block `cur_block`.  New territory
(`cur_blocks ≤ cur_block`) INSERTs a zero-padded block and counts it;
otherwise the existing block is spliced in place.  Returns the new state
and the `created_blocks` increment. -/
def writeStep (db : DB) (ino : Nat) (cur_blocks cur_block cur_offset : Nat)
    (data_left : List Nat) : Option (DB × Nat) :=
  let cs := chunkSize cur_offset data_left.length
  let chunk := data_left.take cs
  let after := DATA_BLOCK_SIZE - cur_offset - cs
  if cur_blocks ≤ cur_block then
    match insertBlock db ino cur_block
        (List.replicate cur_offset 0 ++ chunk ++ List.replicate after 0) with
    | none => none
    | some db1 => some (db1, 1)
  else
    some (updateBlock db ino cur_block (fun bytes => spliceBlock bytes cur_offset chunk), 0)

/-- write_data's while loop from its second iteration on (`cur_offset`
has been reset to 0).  Accumulates `created_blocks`.  The first argument
is recursion fuel: every iteration of the source loop consumes at least
one byte (`chunkSize 0 len = min B len ≥ 1`), so fuel equal to the
number of bytes left never runs out; the `none` on exhausted fuel is
unreachable whenever `fuel ≥ data_left.length`. -/
def writeLoop (ino cur_blocks : Nat) : Nat → DB → Nat → Nat → List Nat → Option (Nat × DB)
  | _, db, _, created, [] => some (created, db)
  | 0, _, _, _, _ :: _ => none
  | fuel + 1, db, cur_block, created, d :: ds =>
    match writeStep db ino cur_blocks cur_block 0 (d :: ds) with
    | none => none
    | some (db1, c) =>
      writeLoop ino cur_blocks fuel db1 (cur_block + 1) (created + c)
        ((d :: ds).drop (chunkSize 0 (d :: ds).length))

/-- write_data's while loop, entered with `cur_offset = offset % B`: one
step at `cur_offset`, then the remaining iterations at offset 0. -/
def writeChunks (db : DB) (ino : Nat) (cur_blocks cur_block cur_offset : Nat)
    (data_left : List Nat) : Option (Nat × DB) :=
  match data_left with
  | [] => some (0, db)
  | _ :: _ =>
    match writeStep db ino cur_blocks cur_block cur_offset data_left with
    | none => none
    | some (db1, c) =>
      writeLoop ino cur_blocks data_left.length db1 (cur_block + 1) c
        (data_left.drop (chunkSize cur_offset data_left.length))

/-- `write_data` from sql.rs: load `(size, blocks)`; hole-fill default
blocks for indexes `cur_blocks..offset / B`; write the buffer chunk by
chunk; finally UPDATE size to `max(size, offset + len)` and blocks to
`blocks + created_blocks` (the hole-filled blocks are NOT counted).  Any
SQL error rolls the transaction back. -/
def write_data (db : DB) (ino : Nat) (offset : Nat) (data : List Nat) :
    SqlRes (Nat × DB) :=
  match findInode db ino with
  | none => SqlRes.absent
  | some inode =>
    let before := offset / DATA_BLOCK_SIZE
    match holeFill db ino inode.blocks (before - inode.blocks) with
    | none => SqlRes.err
    | some db1 =>
      match writeChunks db1 ino inode.blocks before (offset % DATA_BLOCK_SIZE) data with
      | none => SqlRes.err
      | some (created, db2) =>
        let new_size := max inode.size (offset + data.length)
        let new_blocks := inode.blocks + created
        if (findInode db2 ino).isSome then
          SqlRes.ok (data.length,
            { db2 with inodes := db2.inodes.map (fun r =>
                if r.ino == ino then { r with size := new_size, blocks := new_blocks }
                else r) })
        else SqlRes.absent

/-- The key-ordered scan
`SELECT bytes FROM blocks WHERE file_ino = $1 AND block_idx BETWEEN start AND start + n - 1`,
concatenating the payloads of the rows that exist. -/
def readBlocks (db : DB) (ino : Nat) : Nat → Nat → List Nat
  | _, 0 => []
  | start, n + 1 =>
    (match findBlock db ino start with
     | none => []
     | some b => b.bytes) ++ readBlocks db ino (start + 1) n

/-- `read_data` from sql.rs: absent when the inode is missing or
`size < offset + len`; otherwise concatenate the blocks with index in
`[offset / B, (offset + len) / B]` and truncate to `len` bytes.  The
leading `offset mod B` bytes of the first block are NOT discarded. -/
def read_data (db : DB) (ino : Nat) (offset : Nat) (size : Nat) : SqlRes (List Nat) :=
  match findInode db ino with
  | none => SqlRes.absent
  | some inode =>
    if inode.size < offset + size then SqlRes.absent
    else
      let start_block := offset / DATA_BLOCK_SIZE
      let end_block := (offset + size) / DATA_BLOCK_SIZE
      SqlRes.ok ((readBlocks db ino start_block (end_block + 1 - start_block)).take size)

/-- `update_inode` from sql.rs (timestamp parameters omitted):
`UPDATE inodes SET col = IFNULL($i, col) ... WHERE ino = $11 RETURNING *`. -/
def update_inode (db : DB) (ino : Nat) (size : Option Nat) (kind : Option FileType)
    (perm uid gid flags : Option Nat) : SqlRes (FileAttr × DB) :=
  match findInode db ino with
  | none => SqlRes.absent
  | some r =>
    let upd : FileAttr → FileAttr := fun x =>
      { x with size := size.getD x.size, kind := kind.getD x.kind,
               perm := perm.getD x.perm, uid := uid.getD x.uid,
               gid := gid.getD x.gid, flags := flags.getD x.flags }
    SqlRes.ok (upd r,
      { db with inodes := db.inodes.map (fun x => if x.ino == ino then upd x else x) })

/-! The fs.rs handler layer: each FUSE method translates the SQL outcome
into a VFS reply. -/

/-- A VFS reply (`ReplyEntry` / `ReplyAttr` / `ReplyData` / `ReplyWrite`
/ `ReplyEmpty`, or an errno error reply). -/
inductive Reply where
  | entry : FileAttr → Reply
  | attr : FileAttr → Reply
  | data : List Nat → Reply
  | written : Nat → Reply
  | ok : Reply
  | error : Nat → Reply
deriving DecidableEq

def ENOENT : Nat := 2
def EEXIST : Nat := 17
def ENOTDIR : Nat := 20
/-- macOS value (the fuse crate targets macOS; the claims never depend on
the numeric value). -/
def ECONNREFUSED : Nat := 61

/-- The `S_IF` file-type constants (macOS `mode_t` is 16 bits wide, which
is why fs.rs matches on `mode as u16`). -/
def S_IFIFO : Nat := 0o010000
def S_IFCHR : Nat := 0o020000
def S_IFBLK : Nat := 0o060000
def S_IFDIR : Nat := 0o040000
def S_IFREG : Nat := 0o100000
def S_IFLNK : Nat := 0o120000
def S_IFSOCK : Nat := 0o140000

/-- `kind_and_perm_from_mode` from fs.rs, before its `.unwrap()`:
`perm = mode as u16` (the LOW 16 BITS, type bits included) and the kind
is matched from `((mode as u16) >> 12) << 12`.  `none` means the
`.unwrap()` in the source panics. -/
def kind_and_perm_from_mode (mode : Nat) : Option (FileType × Nat) :=
  let perm := mode % 2 ^ 16
  let bits := perm / 2 ^ 12 * 2 ^ 12
  let kind : Option FileType :=
    if bits == S_IFIFO then some FileType.NamedPipe
    else if bits == S_IFCHR then some FileType.CharDevice
    else if bits == S_IFBLK then some FileType.BlockDevice
    else if bits == S_IFDIR then some FileType.Directory
    else if bits == S_IFREG then some FileType.RegularFile
    else if bits == S_IFLNK then some FileType.Symlink
    else if bits == S_IFSOCK then some FileType.Socket
    else none
  kind.map (fun k => (k, perm))

/-- `optional_kind_and_perm_from_mode` from fs.rs: `none` propagates the
panic of `kind_and_perm_from_mode`'s unwrap. -/
def optional_kind_and_perm_from_mode :
    Option Nat → Option (Option FileType × Option Nat)
  | none => some (none, none)
  | some m =>
    match kind_and_perm_from_mode m with
    | none => none
    | some (k, p) => some (some k, some p)

/-- The `init` handler: create the schema, then materialize the root
directory with the `parent = 0` sentinel.  `none` is the ECONNREFUSED
startup failure. -/
def CockroachFS.init (db : DB) : Option DB :=
  match create_inode (create_schema db) 0 "" FileType.Directory 0 with
  | SqlRes.ok (_, db1) => some db1
  | _ => none

/-- The `read` handler: `Err` replies ECONNREFUSED, `Ok(None)` replies
ENOENT, `Ok(Some(data))` replies the data. -/
def CockroachFS.read (db : DB) (ino : Nat) (offset : Nat) (size : Nat) : Reply :=
  match read_data db ino offset size with
  | SqlRes.err => Reply.error ECONNREFUSED
  | SqlRes.absent => Reply.error ENOENT
  | SqlRes.ok d => Reply.data d

/-- The `write` handler. -/
def CockroachFS.write (db : DB) (ino : Nat) (offset : Nat) (data : List Nat) :
    Reply × DB :=
  match write_data db ino offset data with
  | SqlRes.err => (Reply.error ECONNREFUSED, db)
  | SqlRes.absent => (Reply.error ENOENT, db)
  | SqlRes.ok (n, db1) => (Reply.written n, db1)

/-- The `setattr` handler.  The outer `none` is the panic of
`optional_kind_and_perm_from_mode` on a mode word with unknown type
bits, which happens before any SQL runs. -/
def CockroachFS.setattr (db : DB) (ino : Nat) (mode : Option Nat)
    (uid gid : Option Nat) (size : Option Nat) (flags : Option Nat) :
    Option (Reply × DB) :=
  match optional_kind_and_perm_from_mode mode with
  | none => none
  | some (kind, perm) =>
    match update_inode db ino size kind perm uid gid flags with
    | SqlRes.err => some (Reply.error ECONNREFUSED, db)
    | SqlRes.absent => some (Reply.error ENOENT, db)
    | SqlRes.ok (attr, db1) => some (Reply.attr attr, db1)

/-- The `mknod` handler: the `mode` argument is ignored (`_mode` in the
source); the inode is always created with kind RegularFile and the
schema-default permissions. -/
def CockroachFS.mknod (db : DB) (parent : Nat) (name : String) (mode : Nat)
    (rdev : Nat) : Reply × DB :=
  match create_inode db parent name FileType.RegularFile rdev with
  | SqlRes.ok (attr, db1) => (Reply.entry attr, db1)
  | _ => (Reply.error ECONNREFUSED, db)

/-- The `rename` handler: a unique violation (concurrent writers only)
replies EEXIST, other SQL errors ECONNREFUSED, `Ok(false)` ENOENT,
`Ok(true)` ok.  The single-threaded model never raises the SQL errors. -/
def CockroachFS.rename (db : DB) (parent : Nat) (name : String)
    (newparent : Nat) (newname : String) : Reply × DB :=
  match rename_dir_ent db parent name newparent newname with
  | (false, db1) => (Reply.error ENOENT, db1)
  | (true, db1) => (Reply.ok, db1)

/-- The `unlink` handler. -/
def CockroachFS.unlink (db : DB) (parent : Nat) (name : String) : Reply × DB :=
  match CockroachFuse.unlink db parent name with
  | SqlRes.err => (Reply.error ECONNREFUSED, db)
  | SqlRes.absent => (Reply.error ENOENT, db)
  | SqlRes.ok (_, db1) => (Reply.ok, db1)

/-- The `link` handler. -/
def CockroachFS.link (db : DB) (ino : Nat) (newparent : Nat) (newname : String) :
    Reply × DB :=
  match CockroachFuse.link db ino newparent newname with
  | SqlRes.err => (Reply.error ECONNREFUSED, db)
  | SqlRes.absent => (Reply.error ENOENT, db)
  | SqlRes.ok (attr, db1) => (Reply.entry attr, db1)

/-! Well-formedness of a database state, and the link-count invariant. -/

/-- Number of entries in a list whose `child_ino` references `ino`. -/
def countRefs (l : List DirEnt) (ino : Nat) : Nat :=
  (l.filter (fun e => e.child_ino == ino)).length

/-- Number of `dir_entries` rows whose `child_ino` references `ino`. -/
def refCount (db : DB) (ino : Nat) : Nat :=
  countRefs db.dir_entries ino

/-- The link-count invariant: every regular-file inode's `nlink` equals
the number of directory entries referencing it. -/
def nlinkInv (db : DB) : Prop :=
  ∀ attr ∈ db.inodes, attr.kind = FileType.RegularFile → attr.nlink = refCount db attr.ino

/-- The `(dir_ino, child_name)` primary key of `dir_entries`. -/
def entKeysUnique (db : DB) : Prop :=
  db.dir_entries.Pairwise (fun a b => ¬(a.dir_ino = b.dir_ino ∧ a.child_name = b.child_name))

/-- The `ino` primary key of `inodes`. -/
def inoUnique (db : DB) : Prop :=
  db.inodes.Pairwise (fun a b => a.ino ≠ b.ino)

/-- The sequence allocator has moved past every inode number in use. -/
def allocFresh (db : DB) : Prop :=
  (∀ attr ∈ db.inodes, attr.ino < db.next_ino) ∧
  (∀ e ∈ db.dir_entries, e.child_ino < db.next_ino)

/-- Well-formed database state. -/
def WF (db : DB) : Prop :=
  entKeysUnique db ∧ inoUnique db ∧ allocFresh db ∧ nlinkInv db

instance (db : DB) : Decidable (nlinkInv db) := by
  unfold nlinkInv; infer_instance

instance (db : DB) : Decidable (entKeysUnique db) := by
  unfold entKeysUnique; infer_instance

instance (db : DB) : Decidable (inoUnique db) := by
  unfold inoUnique; infer_instance

instance (db : DB) : Decidable (allocFresh db) := by
  unfold allocFresh; infer_instance

instance (db : DB) : Decidable (WF db) := by
  unfold WF; infer_instance

/-- The `S_IF` constant a `FileType` is serialized from in a mode word. -/
def fileTypeBits : FileType → Nat
  | FileType.NamedPipe => S_IFIFO
  | FileType.CharDevice => S_IFCHR
  | FileType.BlockDevice => S_IFBLK
  | FileType.Directory => S_IFDIR
  | FileType.RegularFile => S_IFREG
  | FileType.Symlink => S_IFLNK
  | FileType.Socket => S_IFSOCK

/-! Concrete states used by witnesses and counterexamples. -/

/-- The root inode as `init` creates it on an empty database. -/
def rootAttr : FileAttr :=
  { ino := 1, size := 0, blocks := 0, kind := FileType.Directory, perm := 493,
    nlink := 1, uid := 501, gid := 20, rdev := 0, flags := 0 }

/-- The duplicate root inode a second `init` creates. -/
def rootAttr2 : FileAttr := { rootAttr with ino := 2 }

/-- The database after one `init` on an empty database. -/
def dbInit : DB :=
  { schema := true, next_ino := 2, inodes := [rootAttr], dir_entries := [], blocks := [] }

/-- The database after a second `init` on `dbInit`. -/
def dbInit2 : DB :=
  { schema := true, next_ino := 3, inodes := [rootAttr, rootAttr2],
    dir_entries := [], blocks := [] }

/-- An empty regular file, as `mknod` under the root creates it. -/
def fileAttrF : FileAttr :=
  { ino := 2, size := 0, blocks := 0, kind := FileType.RegularFile, perm := 493,
    nlink := 1, uid := 501, gid := 20, rdev := 0, flags := 0 }

/-- `dbInit` plus the empty regular file `"f"` (inode 2). -/
def dbF : DB :=
  { schema := true, next_ino := 3, inodes := [rootAttr, fileAttrF],
    dir_entries := [⟨1, "f", FileType.RegularFile, 2⟩], blocks := [] }

/-- The state `write_data dbF 2 1 [7]` commits. -/
def dbC1 : DB :=
  match write_data dbF 2 1 [7] with
  | SqlRes.ok (_, d) => d
  | _ => DB.empty

/-- The state `write_data dbF 2 2050 [120]` commits. -/
def dbC2 : DB :=
  match write_data dbF 2 2050 [120] with
  | SqlRes.ok (_, d) => d
  | _ => DB.empty

/-- Root plus two regular files `"a"` (inode 2) and `"b"` (inode 3),
each with one link. -/
def dbTwo : DB :=
  { schema := true, next_ino := 4,
    inodes := [rootAttr, fileAttrF, { fileAttrF with ino := 3 }],
    dir_entries := [⟨1, "a", FileType.RegularFile, 2⟩, ⟨1, "b", FileType.RegularFile, 3⟩],
    blocks := [] }

/-- The state after `rename_dir_ent dbTwo 1 "a" 1 "b"` — the overwriting
rename that orphans inode 3. -/
def dbTwoRenBroken : DB := (rename_dir_ent dbTwo 1 "a" 1 "b").2

/-- The attributes `create_inode dbTwo 1 "c" RegularFile 0` returns. -/
def c7attrCreate : FileAttr :=
  match create_inode dbTwo 1 "c" FileType.RegularFile 0 with
  | SqlRes.ok (a, _) => a
  | _ => rootAttr

/-- The state `create_inode dbTwo 1 "c" RegularFile 0` commits. -/
def c7dbCreate : DB :=
  match create_inode dbTwo 1 "c" FileType.RegularFile 0 with
  | SqlRes.ok (_, d) => d
  | _ => DB.empty

/-- The attributes `link dbTwo 2 1 "c2"` returns. -/
def c7attrLink : FileAttr :=
  match link dbTwo 2 1 "c2" with
  | SqlRes.ok (a, _) => a
  | _ => rootAttr

/-- The state `link dbTwo 2 1 "c2"` commits. -/
def c7dbLink : DB :=
  match link dbTwo 2 1 "c2" with
  | SqlRes.ok (_, d) => d
  | _ => DB.empty

/-- The state `unlink dbTwo 1 "a"` commits. -/
def c7dbUnlink : DB :=
  match unlink dbTwo 1 "a" with
  | SqlRes.ok (_, d) => d
  | _ => DB.empty

/-- The state `rename_dir_ent dbTwo 1 "a" 1 "c"` (no entry at the
destination) commits. -/
def c7dbRename : DB := (rename_dir_ent dbTwo 1 "a" 1 "c").2

/-! Helper lemmas. -/

/-- `create_inode` always hands back the freshly inserted row: defaults
with the requested kind and rdev. -/
theorem create_inode_ok_attr (db : DB) (parent : Nat) (name : String)
    (ft : FileType) (rdev : Nat) (attr : FileAttr) (db1 : DB)
    (h : create_inode db parent name ft rdev = SqlRes.ok (attr, db1)) :
    attr = { ino := db.next_ino, size := 0, blocks := 0, kind := ft, perm := 493,
             nlink := 1, uid := 501, gid := 20, rdev := rdev, flags := 0 } := by
  simp only [create_inode] at h
  split at h
  · simp only [SqlRes.ok.injEq, Prod.mk.injEq] at h
    exact h.1.symm
  · split at h
    · exact absurd h (by simp)
    · split at h
      · exact absurd h (by simp)
      · simp only [SqlRes.ok.injEq, Prod.mk.injEq] at h
        exact h.1.symm

/-! Claim theorems. -/

set_option maxRecDepth 100000

/-- C1 — Write-read round trip.  The claim fails on the code: `read_data`
returns block-aligned data and never discards the `offset mod B` leading
bytes of the first block, and the `read` handler passes the data through
unchanged.  On a fresh regular file (inode 2 of `dbF`), writing the
one-byte buffer `[7]` at offset 1 and reading `(offset, len) = (1, 1)`
back yields `[0]` — the first byte of block 0, a padding zero — and not
the buffer `[7]`.  The spec itself mandates that the caller discard the
leading bytes, which fs.rs does not do. -/
theorem c1_write_read_eval :
    write_data dbF 2 1 [7] = SqlRes.ok (1, dbC1) ∧
    read_data dbC1 2 1 1 = SqlRes.ok [0] ∧
    ([0] : List Nat) ≠ [7] := by decide

/-- C2 — Block accounting.  The claim fails on the code: the hole-fill
loop of `write_data` inserts default blocks without counting them in
`created_blocks`, so writing 1 byte at offset 2050 on the empty file
(inode 2 of `dbF`, B = 1024) commits `size = 2051` as the claim states,
but sets the inode's `blocks` column to 1 while the `blocks` table holds
3 rows for the inode. -/
theorem c2_block_accounting_eval :
    write_data dbF 2 2050 [120] = SqlRes.ok (1, dbC2) ∧
    (findInode dbC2 2).map FileAttr.size = some 2051 ∧
    (findInode dbC2 2).map FileAttr.blocks = some 1 ∧
    (dbC2.blocks.filter (fun b => b.file_ino == 2)).length = 3 := by decide

/-- C3 counterexample — the second `init` against the same database does
not leave the inode set unchanged: it inserts a second (duplicate root)
inode row, so the table grows from one row to two. -/
theorem c3_second_init_adds_inode :
    ((CockroachFS.init DB.empty).bind CockroachFS.init).map (fun d => d.inodes.length) =
      some 2 ∧
    (CockroachFS.init DB.empty).map (fun d => d.inodes.length) = some 1 := by decide

/-- C3 amended — Running `init` twice against the same database leaves
the schema and the directory-entry and block tables unchanged (the
`CREATE ... IF NOT EXISTS` statements are idempotent and the `parent = 0`
sentinel suppresses the `dir_entries` insert), but each `init` also
inserts a fresh root-directory inode row with the next allocator number,
so the second `init` appends exactly one new inode row. -/
theorem c3_idempotent_bootstrap_amended :
    CockroachFS.init DB.empty = some dbInit ∧
    CockroachFS.init dbInit = some dbInit2 ∧
    dbInit2.schema = dbInit.schema ∧
    dbInit2.dir_entries = dbInit.dir_entries ∧
    dbInit2.blocks = dbInit.blocks ∧
    dbInit2.inodes = dbInit.inodes ++ [rootAttr2] := by decide

/-- C4 counterexample — reading past the end of file is not converted
into a short read at the VFS boundary: on the empty file (inode 2 of
`dbF`, size 0) a read of 1 byte at offset 0 gets the error reply ENOENT,
not a (short) data reply. -/
theorem c4_read_past_eof_error_reply :
    CockroachFS.read dbF 2 0 1 = Reply.error ENOENT ∧
    Reply.error ENOENT ≠ Reply.data [] := by decide

/-- C4 amended — for every existing inode, when the requested range
exceeds the current size, `read_data` returns absent, and the `read`
handler converts the absence into the error reply ENOENT (not into a
short read). -/
theorem c4_read_past_eof_amended (db : DB) (ino offset size : Nat) (attr : FileAttr)
    (hfind : findInode db ino = some attr) (hsz : attr.size < offset + size) :
    read_data db ino offset size = SqlRes.absent ∧
    CockroachFS.read db ino offset size = Reply.error ENOENT := by
  have h1 : read_data db ino offset size = SqlRes.absent := by
    simp [read_data, hfind, hsz]
  exact ⟨h1, by simp [CockroachFS.read, h1]⟩

/-- Witness for C4 at a concrete input. -/
theorem c4_read_past_eof_witness :
    read_data dbF 2 0 1 = SqlRes.absent ∧
    CockroachFS.read dbF 2 0 1 = Reply.error ENOENT :=
  c4_read_past_eof_amended dbF 2 0 1 fileAttrF (by decide) (by decide)

/-- C5 counterexample — the permission word is not the low 12 bits of
the mode: for the mode word 0o100644 (= 33188, a regular file with
permissions 0o644) the code returns `perm = 33188` itself (the low 16
bits, type bits included) while `mode mod 2 ^ 12 = 420`. -/
theorem c5_perm_not_low12 :
    kind_and_perm_from_mode 33188 = some (FileType.RegularFile, 33188) ∧
    33188 % 2 ^ 12 = 420 ∧ (33188 : Nat) ≠ 420 := by decide

/-- C5 amended — whenever `kind_and_perm_from_mode` succeeds, the kind
is the one selected by the top 4 of the low 16 bits of the mode (the
`0o170000` mask), but the permission word is the LOW 16 BITS of the mode
(`mode mod 2 ^ 16`, `mode as u16` in the source), not the low 12. -/
theorem c5_mode_decoding_amended (mode : Nat) (k : FileType) (p : Nat)
    (h : kind_and_perm_from_mode mode = some (k, p)) :
    p = mode % 2 ^ 16 ∧ mode % 2 ^ 16 / 2 ^ 12 * 2 ^ 12 = fileTypeBits k := by
  simp only [kind_and_perm_from_mode, beq_iff_eq] at h
  split_ifs at h with h1 h2 h3 h4 h5 h6 h7 <;>
      simp only [Option.map_some', Option.map_none', Option.some.injEq,
        Prod.mk.injEq, reduceCtorEq] at h <;>
    obtain ⟨hk, hp⟩ := h <;> subst hk <;> subst hp
  exacts [⟨rfl, h1⟩, ⟨rfl, h2⟩, ⟨rfl, h3⟩, ⟨rfl, h4⟩, ⟨rfl, h5⟩, ⟨rfl, h6⟩, ⟨rfl, h7⟩]

/-- Witness for C5 at a concrete input. -/
theorem c5_mode_decoding_witness :
    (33188 : Nat) = 33188 % 2 ^ 16 ∧ 33188 % 2 ^ 16 / 2 ^ 12 * 2 ^ 12 =
      fileTypeBits FileType.RegularFile :=
  c5_mode_decoding_amended 33188 FileType.RegularFile 33188 (by decide)

/-- C9 — for every mode word whose file-type bits are not one of the
seven `S_IF` constants, `kind_and_perm_from_mode` hits the `None` arm of
its match and the `.unwrap()` panics; `setattr` calls it (through
`optional_kind_and_perm_from_mode`) before any SQL runs, so the handler
panics instead of producing a reply. -/
theorem c9_setattr_panic (mode : Nat)
    (h : mode % 2 ^ 16 / 2 ^ 12 * 2 ^ 12 ∉
      [S_IFIFO, S_IFCHR, S_IFBLK, S_IFDIR, S_IFREG, S_IFLNK, S_IFSOCK]) :
    kind_and_perm_from_mode mode = none ∧
    ∀ db ino uid gid size flags,
      CockroachFS.setattr db ino (some mode) uid gid size flags = none := by
  simp only [List.mem_cons, List.not_mem_nil, or_false, not_or] at h
  obtain ⟨h1, h2, h3, h4, h5, h6, h7⟩ := h
  have hk : kind_and_perm_from_mode mode = none := by
    simp only [kind_and_perm_from_mode, beq_iff_eq]
    split_ifs
    rfl
  refine ⟨hk, fun db ino uid gid size flags => ?_⟩
  simp [CockroachFS.setattr, optional_kind_and_perm_from_mode, hk]

/-- Witness for C9 at the concrete mode 0o644 (type bits all zero). -/
theorem c9_setattr_panic_witness :
    kind_and_perm_from_mode 420 = none ∧
    CockroachFS.setattr DB.empty 1 (some 420) none none none none = none :=
  ⟨(c9_setattr_panic 420 (by decide)).1,
   (c9_setattr_panic 420 (by decide)).2 DB.empty 1 none none none none⟩

/-- C10 — `mknod` ignores the mode word: the reply is the same for every
mode argument, and a successful `mknod` creates an inode of kind
RegularFile whose permission word is the schema default 493 = 0o755. -/
theorem c10_mknod_ignores_mode (db : DB) (parent : Nat) (name : String)
    (mode mode2 rdev : Nat) (attr : FileAttr) (db1 : DB)
    (h : CockroachFS.mknod db parent name mode rdev = (Reply.entry attr, db1)) :
    CockroachFS.mknod db parent name mode2 rdev = (Reply.entry attr, db1) ∧
    attr.kind = FileType.RegularFile ∧ attr.perm = 493 := by
  refine ⟨h, ?_⟩
  unfold CockroachFS.mknod at h
  cases hc : create_inode db parent name FileType.RegularFile rdev with
  | err => rw [hc] at h; simp at h
  | absent => rw [hc] at h; simp at h
  | ok v =>
    obtain ⟨a, d⟩ := v
    rw [hc] at h
    simp only [Prod.mk.injEq, Reply.entry.injEq] at h
    obtain ⟨ha, _⟩ := h
    have := create_inode_ok_attr db parent name FileType.RegularFile rdev a d hc
    subst ha
    rw [this]
    exact ⟨rfl, rfl⟩

/-- Witness for C10: `mknod` with mode 0o040777 (directory type bits,
permissions 0o777) still creates a RegularFile with perm 0o755. -/
theorem c10_mknod_ignores_mode_witness :
    CockroachFS.mknod dbInit 1 "f" 0 0 = (Reply.entry fileAttrF, dbF) ∧
    fileAttrF.kind = FileType.RegularFile ∧ fileAttrF.perm = 493 :=
  c10_mknod_ignores_mode dbInit 1 "f" 16895 0 0 fileAttrF dbF (by decide)

/-- C8 — Rename not-found atomicity: when no entry exists at
`(parent, name)`, `rename_dir_ent` rolls the transaction back and
returns not-found, so the database — in particular any pre-existing
entry at `(newparent, newname)` that was deleted inside the transaction
— is left exactly as it was, and the `rename` handler replies ENOENT. -/
theorem c8_rename_not_found (db : DB) (parent : Nat) (name : String)
    (newparent : Nat) (newname : String)
    (h : findDirEnt db parent name = none) :
    rename_dir_ent db parent name newparent newname = (false, db) ∧
    CockroachFS.rename db parent name newparent newname = (Reply.error ENOENT, db) := by
  have hall : ∀ e ∈ db.dir_entries,
      ¬(e.dir_ino == parent && e.child_name == name) = true :=
    List.find?_eq_none.mp h
  have h0 : ((db.dir_entries.filter fun e =>
      !(e.dir_ino == newparent && e.child_name == newname)).filter fun e =>
      e.dir_ino == parent && e.child_name == name) = [] := by
    rw [List.filter_eq_nil_iff]
    intro e he
    exact hall e (List.mem_of_mem_filter he)
  have h1 : rename_dir_ent db parent name newparent newname = (false, db) := by
    simp only [rename_dir_ent]
    rw [h0]
    rfl
  exact ⟨h1, by simp [CockroachFS.rename, h1]⟩

/-- Witness for C8: in `dbTwo` there is no entry named `"zzz"`, but
there is one at `(1, "b")`; the failed rename leaves the state — that
entry included — untouched. -/
theorem c8_rename_not_found_witness :
    rename_dir_ent dbTwo 1 "zzz" 1 "b" = (false, dbTwo) ∧
    CockroachFS.rename dbTwo 1 "zzz" 1 "b" = (Reply.error ENOENT, dbTwo) :=
  c8_rename_not_found dbTwo 1 "zzz" 1 "b" (by decide)

/-! Lemmas about block rows, the hole-fill loop and the chunked write
loop, used for the hole-zero property (C6). -/

/-- Appending a block row leaves lookups at every other key unchanged. -/
theorem findBlock_append_other (db : DB) (ino i : Nat) (bytes : List Nat)
    (ino2 j : Nat) (hne : ino2 ≠ ino ∨ j ≠ i) :
    findBlock { db with blocks := db.blocks ++ [⟨ino, i, bytes⟩] } ino2 j =
      findBlock db ino2 j := by
  show (db.blocks ++ [(⟨ino, i, bytes⟩ : Block)]).find?
      (fun (b : Block) => b.file_ino == ino2 && b.block_idx == j) = findBlock db ino2 j
  rw [List.find?_append]
  have hs : List.find? (fun b => b.file_ino == ino2 && b.block_idx == j)
      [(⟨ino, i, bytes⟩ : Block)] = none := by
    rw [List.find?_eq_none]
    intro x hx
    rw [List.mem_singleton] at hx
    subst hx
    simp only [Bool.and_eq_true, beq_iff_eq, not_and]
    intro h1 h2
    rcases hne with h | h
    · exact h h1.symm
    · exact h h2.symm
  rw [hs, Option.or_none]
  rfl

/-- Appending a block row at a key with no row makes it findable. -/
theorem findBlock_append_self (db : DB) (ino i : Nat) (bytes : List Nat)
    (hnone : findBlock db ino i = none) :
    findBlock { db with blocks := db.blocks ++ [⟨ino, i, bytes⟩] } ino i =
      some ⟨ino, i, bytes⟩ := by
  show (db.blocks ++ [(⟨ino, i, bytes⟩ : Block)]).find?
      (fun (b : Block) => b.file_ino == ino && b.block_idx == i) = some ⟨ino, i, bytes⟩
  rw [List.find?_append]
  have h0 : List.find? (fun b => b.file_ino == ino && b.block_idx == i) db.blocks =
      none := hnone
  rw [h0]
  simp [List.find?_cons]

/-- The hole-fill loop succeeds when the target index range is free, and
yields the all-zero default block at every filled index while touching
nothing else. -/
theorem holeFill_spec (ino : Nat) : ∀ (cnt : Nat) (db : DB) (i : Nat),
    (∀ j, i ≤ j → findBlock db ino j = none) →
    ∃ db1, holeFill db ino i cnt = some db1 ∧
      db1.inodes = db.inodes ∧ db1.dir_entries = db.dir_entries ∧
      (∀ j, j < i → findBlock db1 ino j = findBlock db ino j) ∧
      (∀ j, i ≤ j → j < i + cnt → findBlock db1 ino j = some ⟨ino, j, zeroBlock⟩) ∧
      (∀ j, i + cnt ≤ j → findBlock db1 ino j = none) := by
  intro cnt
  induction cnt with
  | zero =>
    intro db i h
    exact ⟨db, rfl, rfl, rfl, fun j _ => rfl,
      fun j h1 h2 => absurd h1 (by omega), fun j hj => h j (by omega)⟩
  | succ n ih =>
    intro db i h
    have hins : insertBlock db ino i zeroBlock =
        some { db with blocks := db.blocks ++ [⟨ino, i, zeroBlock⟩] } := by
      unfold insertBlock
      rw [h i (le_refl i)]
      rfl
    set db' : DB := { db with blocks := db.blocks ++ [⟨ino, i, zeroBlock⟩] } with hdb'
    have hstep : holeFill db ino i (n + 1) = holeFill db' ino (i + 1) n := by
      show (match insertBlock db ino i zeroBlock with
        | none => none
        | some db1 => holeFill db1 ino (i + 1) n) = holeFill db' ino (i + 1) n
      rw [hins]
    have h' : ∀ j, i + 1 ≤ j → findBlock db' ino j = none := by
      intro j hj
      rw [hdb', findBlock_append_other db ino i zeroBlock ino j (Or.inr (by omega))]
      exact h j (by omega)
    obtain ⟨db1, heq, hi, hd, hlow, hfill, hhigh⟩ := ih db' (i + 1) h'
    refine ⟨db1, by rw [hstep, heq], by rw [hi], by rw [hd], ?_, ?_, ?_⟩
    · intro j hj
      rw [hlow j (by omega),
        findBlock_append_other db ino i zeroBlock ino j (Or.inr (by omega))]
    · intro j h1 h2
      by_cases hji : j = i
      · subst hji
        rw [hlow j (by omega)]
        exact findBlock_append_self db ino j zeroBlock (h j (le_refl j))
      · exact hfill j (by omega) (by omega)
    · intro j hj
      exact hhigh j (by omega)

/-- Every iteration of the write loop consumes at least one byte. -/
theorem chunkSize_pos (left : Nat) (hl : 0 < left) : 0 < chunkSize 0 left := by
  simp only [chunkSize, DATA_BLOCK_SIZE]
  split <;> omega

/-- The insert branch of one write-loop iteration. -/
theorem writeStep_insert (db : DB) (ino cur_blocks cur_block cur_offset : Nat)
    (data_left : List Nat) (hle : cur_blocks ≤ cur_block)
    (hnone : findBlock db ino cur_block = none) :
    writeStep db ino cur_blocks cur_block cur_offset data_left =
      some ({ db with blocks := db.blocks ++
        [⟨ino, cur_block, List.replicate cur_offset 0 ++
          data_left.take (chunkSize cur_offset data_left.length) ++
          List.replicate
            (DATA_BLOCK_SIZE - cur_offset - chunkSize cur_offset data_left.length) 0⟩] },
        1) := by
  unfold writeStep insertBlock
  rw [hnone]
  simp [hle]

/-- The write loop succeeds with enough fuel when all the territory from
`cur_block` on is new, and leaves every block strictly below `cur_block`
(and the other tables) unchanged. -/
theorem writeLoop_spec (ino cur_blocks : Nat) : ∀ (fuel : Nat) (rest : List Nat)
    (db : DB) (cur_block created : Nat),
    rest.length ≤ fuel → cur_blocks ≤ cur_block →
    (∀ j, cur_block ≤ j → findBlock db ino j = none) →
    ∃ c db1, writeLoop ino cur_blocks fuel db cur_block created rest = some (c, db1) ∧
      db1.inodes = db.inodes ∧ db1.dir_entries = db.dir_entries ∧
      (∀ j, j < cur_block → findBlock db1 ino j = findBlock db ino j) := by
  intro fuel
  induction fuel with
  | zero =>
    intro rest db cur_block created hf hcb h
    match rest with
    | [] => exact ⟨created, db, rfl, rfl, rfl, fun j _ => rfl⟩
    | d :: ds => simp at hf
  | succ fuel ih =>
    intro rest db cur_block created hf hcb h
    match rest with
    | [] => exact ⟨created, db, rfl, rfl, rfl, fun j _ => rfl⟩
    | d :: ds =>
      have hstep := writeStep_insert db ino cur_blocks cur_block 0 (d :: ds) hcb
        (h cur_block (le_refl cur_block))
      set payload : List Nat := List.replicate 0 0 ++
        (d :: ds).take (chunkSize 0 (d :: ds).length) ++
        List.replicate (DATA_BLOCK_SIZE - 0 - chunkSize 0 (d :: ds).length) 0 with hpay
      set db' : DB := { db with blocks := db.blocks ++ [⟨ino, cur_block, payload⟩] }
        with hdb'
      have h' : ∀ j, cur_block + 1 ≤ j → findBlock db' ino j = none := by
        intro j hj
        rw [hdb', findBlock_append_other db ino cur_block payload ino j (Or.inr (by omega))]
        exact h j (by omega)
      have hcs : 0 < chunkSize 0 (d :: ds).length :=
        chunkSize_pos (d :: ds).length (by simp)
      have hf' : ((d :: ds).drop (chunkSize 0 (d :: ds).length)).length ≤ fuel := by
        rw [List.length_drop]
        omega
      obtain ⟨c, db1, heq, hi, hd2, hlow⟩ := ih ((d :: ds).drop (chunkSize 0 (d :: ds).length))
        db' (cur_block + 1) (created + 1) hf' (by omega) h'
      refine ⟨c, db1, ?_, by rw [hi], by rw [hd2], ?_⟩
      · show (match writeStep db ino cur_blocks cur_block 0 (d :: ds) with
          | none => none
          | some (db2, c2) =>
            writeLoop ino cur_blocks fuel db2 (cur_block + 1) (created + c2)
              ((d :: ds).drop (chunkSize 0 (d :: ds).length))) = some (c, db1)
        rw [hstep]
        exact heq
      · intro j hj
        rw [hlow j (by omega),
          findBlock_append_other db ino cur_block payload ino j (Or.inr (by omega))]

/-- A key-ordered scan over `n` zero blocks followed by one more block
concatenates to `n * B` zero bytes followed by that block's payload. -/
theorem readBlocks_zero_then (db : DB) (ino : Nat) (bytes : List Nat) :
    ∀ (n start : Nat),
    (∀ k, k < n → findBlock db ino (start + k) = some ⟨ino, start + k, zeroBlock⟩) →
    findBlock db ino (start + n) = some ⟨ino, start + n, bytes⟩ →
    readBlocks db ino start (n + 1) = List.replicate (n * DATA_BLOCK_SIZE) 0 ++ bytes := by
  intro n
  induction n with
  | zero =>
    intro start h hb
    rw [Nat.add_zero] at hb
    show (match findBlock db ino start with
      | none => []
      | some b => b.bytes) ++ readBlocks db ino (start + 1) 0 = _
    rw [hb]
    simp [readBlocks]
  | succ m ih =>
    intro start h hb
    have h0 : findBlock db ino start = some ⟨ino, start, zeroBlock⟩ := by
      have := h 0 (by omega)
      rwa [Nat.add_zero] at this
    have hshift : ∀ k, k < m → findBlock db ino (start + 1 + k) =
        some ⟨ino, start + 1 + k, zeroBlock⟩ := by
      intro k hk
      have := h (k + 1) (by omega)
      rwa [show start + (k + 1) = start + 1 + k by omega] at this
    have hb' : findBlock db ino (start + 1 + m) = some ⟨ino, start + 1 + m, bytes⟩ := by
      rwa [show start + (m + 1) = start + 1 + m by omega] at hb
    have ih' := ih (start + 1) hshift hb'
    show (match findBlock db ino start with
      | none => []
      | some b => b.bytes) ++ readBlocks db ino (start + 1) (m + 1) = _
    rw [h0, ih']
    show zeroBlock ++ (List.replicate (m * DATA_BLOCK_SIZE) 0 ++ bytes) = _
    rw [show (m + 1) * DATA_BLOCK_SIZE = DATA_BLOCK_SIZE + m * DATA_BLOCK_SIZE by ring,
      List.replicate_add, List.append_assoc]
    rfl

/-- `find?` for an inode number commutes with write_data's final
size-and-blocks UPDATE map. -/
theorem find?_map_set_size_blocks (ino ns nb : Nat) : ∀ l : List FileAttr,
    (l.map (fun x =>
        if x.ino == ino then { x with size := ns, blocks := nb } else x)).find?
        (fun x => x.ino == ino) =
      (l.find? (fun x => x.ino == ino)).map
        (fun x => { x with size := ns, blocks := nb }) := by
  intro l
  induction l with
  | nil => rfl
  | cons a t ih =>
    by_cases ha : a.ino = ino
    · simp [List.find?_cons, ha, -List.find?_map]
    · have ih' := ih
      simp only [beq_iff_eq] at ih'
      simp [List.find?_cons, ha, -List.find?_map]
      exact ih'

/-- `findInode` after write_data's final UPDATE. -/
theorem findInode_set_size_blocks (db : DB) (ino ns nb : Nat) :
    findInode { db with inodes := db.inodes.map (fun x =>
        if x.ino == ino then { x with size := ns, blocks := nb } else x) } ino =
      (findInode db ino).map (fun x => { x with size := ns, blocks := nb }) :=
  find?_map_set_size_blocks ino ns nb db.inodes

/-- C6 — Hole zero: writing a non-empty buffer at `offset > 0` into an
empty regular file (size 0, blocks 0, no block rows) hole-fills the gap
with all-zero default blocks and zero-pads the head of the first written
block, so a subsequent `read_data(ino, 0, offset)` returns exactly
`offset` zero bytes. -/
theorem c6_hole_zero (db : DB) (ino offset : Nat) (data : List Nat) (attr : FileAttr)
    (hfind : findInode db ino = some attr)
    (hsize : attr.size = 0) (hblocks : attr.blocks = 0)
    (hrows : ∀ idx, findBlock db ino idx = none)
    (hoff : 0 < offset) (hdata : data ≠ []) :
    ∃ db1, write_data db ino offset data = SqlRes.ok (data.length, db1) ∧
      read_data db1 ino 0 offset = SqlRes.ok (List.replicate offset 0) := by
  obtain ⟨d, ds, rfl⟩ : ∃ d ds, data = d :: ds := by
    cases data with
    | nil => exact absurd rfl hdata
    | cons d ds => exact ⟨d, ds, rfl⟩
  obtain ⟨dbH, hHeq, hHi, hHd, hHlow, hHfill, hHhigh⟩ :=
    holeFill_spec ino (offset / DATA_BLOCK_SIZE) db 0 (fun j _ => hrows j)
  have hnoneB : findBlock dbH ino (offset / DATA_BLOCK_SIZE) = none :=
    hHhigh (offset / DATA_BLOCK_SIZE) (by omega)
  have hstep := writeStep_insert dbH ino 0 (offset / DATA_BLOCK_SIZE)
    (offset % DATA_BLOCK_SIZE) (d :: ds) (Nat.zero_le _) hnoneB
  set cs := chunkSize (offset % DATA_BLOCK_SIZE) (d :: ds).length with hcsdef
  set payload : List Nat := List.replicate (offset % DATA_BLOCK_SIZE) 0 ++
    (d :: ds).take cs ++
    List.replicate (DATA_BLOCK_SIZE - offset % DATA_BLOCK_SIZE - cs) 0 with hpayload
  set db' : DB :=
    { dbH with blocks := dbH.blocks ++ [⟨ino, offset / DATA_BLOCK_SIZE, payload⟩] }
    with hdb'
  have h' : ∀ j, offset / DATA_BLOCK_SIZE + 1 ≤ j → findBlock db' ino j = none := by
    intro j hj
    rw [hdb', findBlock_append_other dbH ino (offset / DATA_BLOCK_SIZE) payload ino j
      (Or.inr (by omega))]
    exact hHhigh j (by omega)
  obtain ⟨c, db2, hLeq, hLi, hLd, hLlow⟩ :=
    writeLoop_spec ino 0 (d :: ds).length ((d :: ds).drop cs) db'
      (offset / DATA_BLOCK_SIZE + 1) 1 (by rw [List.length_drop]; omega) (Nat.zero_le _) h'
  have hWC : writeChunks dbH ino 0 (offset / DATA_BLOCK_SIZE) (offset % DATA_BLOCK_SIZE)
      (d :: ds) = some (c, db2) := by
    show (match writeStep dbH ino 0 (offset / DATA_BLOCK_SIZE) (offset % DATA_BLOCK_SIZE)
        (d :: ds) with
      | none => none
      | some (dbs, cs2) =>
        writeLoop ino 0 (d :: ds).length dbs (offset / DATA_BLOCK_SIZE + 1) cs2
          ((d :: ds).drop (chunkSize (offset % DATA_BLOCK_SIZE) (d :: ds).length))) =
      some (c, db2)
    rw [hstep]
    exact hLeq
  have hHeq2 : holeFill db ino attr.blocks (offset / DATA_BLOCK_SIZE - attr.blocks) =
      some dbH := by
    rw [hblocks, Nat.sub_zero]
    exact hHeq
  have hWC2 : writeChunks dbH ino attr.blocks (offset / DATA_BLOCK_SIZE)
      (offset % DATA_BLOCK_SIZE) (d :: ds) = some (c, db2) := by
    rw [hblocks]
    exact hWC
  have hI2 : findInode db2 ino = some attr := by
    unfold findInode
    rw [hLi]
    show dbH.inodes.find? (fun r => r.ino == ino) = some attr
    rw [hHi]
    exact hfind
  set ns := max attr.size (offset + (d :: ds).length) with hns
  set nb := attr.blocks + c with hnb
  set db3 : DB := { db2 with inodes := db2.inodes.map (fun x =>
      if x.ino == ino then { x with size := ns, blocks := nb } else x) } with hdb3
  refine ⟨db3, ?_, ?_⟩
  · unfold write_data
    simp only [hfind, hHeq2, hWC2, hI2, Option.isSome_some]
    rfl
  · have hfb3 : ∀ i2 j, findBlock db3 i2 j = findBlock db2 i2 j := fun _ _ => rfl
    have hI3 : findInode db3 ino = some { attr with size := ns, blocks := nb } := by
      rw [hdb3, findInode_set_size_blocks db2 ino ns nb, hI2]
      rfl
    have hguard : ¬ (ns < 0 + offset) := by
      rw [hns]
      have hmax := le_max_right attr.size (offset + (d :: ds).length)
      omega
    have hRB : readBlocks db3 ino 0 (offset / DATA_BLOCK_SIZE + 1) =
        List.replicate (offset / DATA_BLOCK_SIZE * DATA_BLOCK_SIZE) 0 ++ payload := by
      apply readBlocks_zero_then db3 ino payload (offset / DATA_BLOCK_SIZE) 0
      · intro k hk
        rw [Nat.zero_add, hfb3 ino k, hLlow k (by omega), hdb',
          findBlock_append_other dbH ino (offset / DATA_BLOCK_SIZE) payload ino k
            (Or.inr (by omega))]
        exact hHfill k (by omega) (by omega)
      · rw [Nat.zero_add, hfb3 ino (offset / DATA_BLOCK_SIZE),
          hLlow (offset / DATA_BLOCK_SIZE) (by omega), hdb']
        exact findBlock_append_self dbH ino (offset / DATA_BLOCK_SIZE) payload hnoneB
    have htp : payload.take (offset % DATA_BLOCK_SIZE) =
        List.replicate (offset % DATA_BLOCK_SIZE) (0 : Nat) := by
      rw [hpayload, List.append_assoc, List.take_append_eq_append_take,
        List.take_replicate, List.length_replicate]
      simp
    have htake : (List.replicate (offset / DATA_BLOCK_SIZE * DATA_BLOCK_SIZE) (0 : Nat) ++
        payload).take offset = List.replicate offset 0 := by
      rw [List.take_append_eq_append_take, List.take_replicate, List.length_replicate]
      have e1 : min offset (offset / DATA_BLOCK_SIZE * DATA_BLOCK_SIZE) =
          offset / DATA_BLOCK_SIZE * DATA_BLOCK_SIZE := by
        simp only [DATA_BLOCK_SIZE]
        omega
      have e2 : offset - offset / DATA_BLOCK_SIZE * DATA_BLOCK_SIZE =
          offset % DATA_BLOCK_SIZE := by
        simp only [DATA_BLOCK_SIZE]
        omega
      rw [e1, e2, htp, ← List.replicate_add]
      congr 1
      simp only [DATA_BLOCK_SIZE]
      omega
    unfold read_data
    simp only [hI3]
    split
    · next hlt => exact absurd hlt hguard
    · simp only [Nat.zero_div, Nat.zero_add, Nat.sub_zero]
      rw [hRB, htake]

/-- Witness for C6 at a concrete input: writing `[5]` at offset 3 into
the empty file (inode 2) of `dbF` makes `read_data(2, 0, 3)` return
three zero bytes. -/
theorem c6_hole_zero_witness :
    ∃ db1, write_data dbF 2 3 [5] = SqlRes.ok (1, db1) ∧
      read_data db1 2 0 3 = SqlRes.ok (List.replicate 3 0) :=
  c6_hole_zero dbF 2 3 [5] fileAttrF (by decide) (by decide) (by decide)
    (fun idx => rfl) (by decide) (by decide)

/-! Lemmas for the link-count invariant (C7). -/

/-- A `find?` hit splits the list, with no hit before it. -/
theorem find?_split {α : Type} (p : α → Bool) :
    ∀ (l : List α) (a : α), l.find? p = some a →
    ∃ l1 l2, l = l1 ++ a :: l2 ∧ ∀ x ∈ l1, p x = false := by
  intro l
  induction l with
  | nil =>
    intro a h
    simp at h
  | cons b t ih =>
    intro a h
    rw [List.find?_cons] at h
    cases hb : p b with
    | true =>
      rw [hb] at h
      simp only [Option.some.injEq] at h
      subst h
      exact ⟨[], t, rfl, by simp⟩
    | false =>
      rw [hb] at h
      obtain ⟨l1, l2, heq, hall⟩ := ih a h
      refine ⟨b :: l1, l2, by rw [heq]; rfl, ?_⟩
      intro x hx
      rcases List.mem_cons.mp hx with h1 | h1
      · subst h1; exact hb
      · exact hall x h1

/-- Two members of an ino-unique list with equal inos are equal. -/
theorem ino_unique_mem_eq : ∀ (l : List FileAttr),
    l.Pairwise (fun a b => a.ino ≠ b.ino) → ∀ a b : FileAttr,
    a ∈ l → b ∈ l → a.ino = b.ino → a = b := by
  intro l
  induction l with
  | nil =>
    intro _ a b ha
    cases ha
  | cons x t ih =>
    intro hp a b ha hb h
    rw [List.pairwise_cons] at hp
    rcases List.mem_cons.mp ha with h1 | h1 <;> rcases List.mem_cons.mp hb with h2 | h2
    · rw [h1, h2]
    · subst h1; exact absurd h (hp.1 b h2)
    · subst h2; exact absurd h.symm (hp.1 a h1)
    · exact ih hp.2 a b h1 h2 h

theorem countRefs_append (l1 l2 : List DirEnt) (i : Nat) :
    countRefs (l1 ++ l2) i = countRefs l1 i + countRefs l2 i := by
  unfold countRefs
  rw [List.filter_append, List.length_append]

theorem countRefs_cons (e : DirEnt) (l : List DirEnt) (i : Nat) :
    countRefs (e :: l) i = (if e.child_ino = i then 1 else 0) + countRefs l i := by
  unfold countRefs
  rw [List.filter_cons]
  by_cases h : e.child_ino = i
  · rw [if_pos (by simp [h]), if_pos h, List.length_cons]
    omega
  · rw [if_neg (by simp [h]), if_neg h]
    omega

theorem countRefs_nil (i : Nat) : countRefs [] i = 0 := rfl

/-- `countRefs` is blind to a map that does not change `child_ino`. -/
theorem countRefs_map (f : DirEnt → DirEnt) (hf : ∀ e, (f e).child_ino = e.child_ino)
    (i : Nat) : ∀ l, countRefs (l.map f) i = countRefs l i := by
  intro l
  induction l with
  | nil => rfl
  | cons a t ih => rw [List.map_cons, countRefs_cons, countRefs_cons, hf a, ih]

/-- No entry references an ino the allocator has not reached. -/
theorem countRefs_fresh (l : List DirEnt) (bound i : Nat)
    (hf : ∀ e ∈ l, e.child_ino < bound) (hi : bound ≤ i) : countRefs l i = 0 := by
  unfold countRefs
  rw [List.length_eq_zero]
  rw [List.filter_eq_nil_iff]
  intro e he
  simp only [beq_iff_eq]
  have := hf e he
  omega

/-- Decompose a successful `findDirEnt`. -/
theorem findDirEnt_some_facts (db : DB) (p : Nat) (n : String) (e : DirEnt)
    (h : findDirEnt db p n = some e) :
    e ∈ db.dir_entries ∧ e.dir_ino = p ∧ e.child_name = n := by
  have hm := List.mem_of_find?_eq_some h
  have hp := List.find?_some h
  simp only [Bool.and_eq_true, beq_iff_eq] at hp
  exact ⟨hm, hp.1, hp.2⟩

/-- Decompose a successful `findInode`. -/
theorem findInode_some_facts (db : DB) (i : Nat) (r : FileAttr)
    (h : findInode db i = some r) : r ∈ db.inodes ∧ r.ino = i := by
  have hm := List.mem_of_find?_eq_some h
  have hp := List.find?_some h
  simp only [beq_iff_eq] at hp
  exact ⟨hm, hp⟩

/-- A failed `findDirEnt` means no entry carries that key. -/
theorem findDirEnt_none_facts (db : DB) (p : Nat) (n : String)
    (h : findDirEnt db p n = none) :
    ∀ x ∈ db.dir_entries, ¬(x.dir_ino = p ∧ x.child_name = n) := by
  intro x hx hc
  have := List.find?_eq_none.mp h x hx
  simp only [Bool.and_eq_true, beq_iff_eq, not_and] at this
  exact this hc.1 hc.2

/-- A successful `findDirEnt` under key uniqueness splits the entry list
into the found entry and surroundings that do not carry the key. -/
theorem findDirEnt_split (db : DB) (p : Nat) (n : String) (e : DirEnt)
    (hk : entKeysUnique db)
    (h : findDirEnt db p n = some e) :
    ∃ l1 l2, db.dir_entries = l1 ++ e :: l2 ∧
      (∀ x ∈ l1, ¬(x.dir_ino = p ∧ x.child_name = n)) ∧
      (∀ x ∈ l2, ¬(x.dir_ino = p ∧ x.child_name = n)) := by
  obtain ⟨l1, l2, heq, hl1⟩ := find?_split _ db.dir_entries e h
  obtain ⟨_, hep, hen⟩ := findDirEnt_some_facts db p n e h
  refine ⟨l1, l2, heq, ?_, ?_⟩
  · intro x hx hc
    have hxt : (x.dir_ino == p && x.child_name == n) = true := by
      simp [hc.1, hc.2]
    rw [hl1 x hx] at hxt
    cases hxt
  · have hpw := hk
    unfold entKeysUnique at hpw
    rw [heq, List.pairwise_append] at hpw
    have hcons := hpw.2.1
    rw [List.pairwise_cons] at hcons
    intro x hx hc
    exact hcons.1 x hx ⟨by rw [hep, ← hc.1], by rw [hen, ← hc.2]⟩

/-- The row-update function of `update_nlink` keeps the inode number. -/
theorem update_nlink_row_ino (ino k : Nat) (x : FileAttr) :
    ((if x.ino == ino then { x with nlink := k } else x) : FileAttr).ino = x.ino := by
  split <;> rfl

/-- The row-update function of `update_nlink` keeps the kind. -/
theorem update_nlink_row_kind (ino k : Nat) (x : FileAttr) :
    ((if x.ino == ino then { x with nlink := k } else x) : FileAttr).kind = x.kind := by
  split <;> rfl

/-- Mapping an ino-preserving function keeps the inos pairwise distinct. -/
theorem inoPairwise_map (g : FileAttr → FileAttr) (hg : ∀ x, (g x).ino = x.ino)
    (l : List FileAttr) (h : l.Pairwise (fun a b => a.ino ≠ b.ino)) :
    (l.map g).Pairwise (fun a b => a.ino ≠ b.ino) := by
  rw [List.pairwise_map]
  exact h.imp (fun {a b} hab => by rw [hg a, hg b]; exact hab)

/-- `create_inode` with a real parent preserves well-formedness. -/
theorem create_inode_preserves_WF (db : DB) (parent : Nat) (name : String)
    (ft : FileType) (rdev : Nat) (attr : FileAttr) (db1 : DB)
    (hwf : WF db) (hp : parent ≠ 0)
    (h : create_inode db parent name ft rdev = SqlRes.ok (attr, db1)) : WF db1 := by
  obtain ⟨hk, hu, ⟨hfi, hfe⟩, hinv⟩ := hwf
  simp only [create_inode] at h
  rw [if_neg (by simp [hp])] at h
  split at h
  · cases h
  · split at h
    · cases h
    · next hcond2 =>
      simp only [SqlRes.ok.injEq, Prod.mk.injEq] at h
      obtain ⟨_, hdb1⟩ := h
      subst hdb1
      have hNone : findDirEnt db parent name = none := by
        have := Option.not_isSome_iff_eq_none.mp hcond2
        exact this
      have hNoKey := findDirEnt_none_facts db parent name hNone
      refine ⟨?_, ?_, ⟨?_, ?_⟩, ?_⟩
      · show (db.dir_entries ++
          [(⟨parent, name, ft, db.next_ino⟩ : DirEnt)]).Pairwise _
        rw [List.pairwise_append]
        refine ⟨hk, by simp, ?_⟩
        intro a ha b hb
        rw [List.mem_singleton] at hb
        subst hb
        intro hc
        exact hNoKey a ha ⟨hc.1, hc.2⟩
      · show (db.inodes ++ [_]).Pairwise _
        rw [List.pairwise_append]
        refine ⟨hu, by simp, ?_⟩
        intro a ha b hb
        rw [List.mem_singleton] at hb
        subst hb
        have := hfi a ha
        show a.ino ≠ db.next_ino
        omega
      · intro r hr
        rcases List.mem_append.mp hr with h1 | h1
        · have := hfi r h1
          show r.ino < db.next_ino + 1
          omega
        · rw [List.mem_singleton] at h1
          subst h1
          show db.next_ino < db.next_ino + 1
          omega
      · intro e he
        rcases List.mem_append.mp he with h1 | h1
        · have := hfe e h1
          show e.child_ino < db.next_ino + 1
          omega
        · rw [List.mem_singleton] at h1
          subst h1
          show db.next_ino < db.next_ino + 1
          omega
      · intro r hr hreg
        show r.nlink = countRefs (db.dir_entries ++
          [(⟨parent, name, ft, db.next_ino⟩ : DirEnt)]) r.ino
        rw [countRefs_append, countRefs_cons, countRefs_nil]
        rcases List.mem_append.mp hr with h1 | h1
        · have hlt := hfi r h1
          rw [if_neg (by show ¬ db.next_ino = r.ino; omega)]
          have := hinv r h1 hreg
          unfold refCount at this
          omega
        · rw [List.mem_singleton] at h1
          subst h1
          show 1 = countRefs db.dir_entries db.next_ino + ((if db.next_ino = db.next_ino then 1 else 0) + 0)
          rw [if_pos rfl, countRefs_fresh db.dir_entries db.next_ino db.next_ino hfe
            (le_refl _)]

/-- `link` preserves well-formedness. -/
theorem link_preserves_WF (db : DB) (ino parent : Nat) (newname : String)
    (attr : FileAttr) (db1 : DB) (hwf : WF db)
    (h : link db ino parent newname = SqlRes.ok (attr, db1)) : WF db1 := by
  obtain ⟨hk, hu, ⟨hfi, hfe⟩, hinv⟩ := hwf
  unfold link at h
  cases hli : lookup_inode db ino with
  | none => rw [hli] at h; cases h
  | some inode =>
    simp only [hli] at h
    obtain ⟨hmem, hino⟩ := findInode_some_facts db ino inode hli
    by_cases h1 : inode.kind ≠ FileType.RegularFile
    · rw [if_pos h1] at h; simp at h
    rw [if_neg h1] at h
    by_cases h2 : (findInode db parent).isNone = true
    · rw [if_pos h2] at h; simp at h
    rw [if_neg h2] at h
    by_cases h3 : (findDirEnt db parent newname).isSome = true
    · rw [if_pos h3] at h; simp at h
    rw [if_neg h3] at h
    · simp only [SqlRes.ok.injEq, Prod.mk.injEq] at h
      obtain ⟨_, hdb1⟩ := h
      subst hdb1
      have hNone : findDirEnt db parent newname = none :=
        Option.not_isSome_iff_eq_none.mp h3
      have hNoKey := findDirEnt_none_facts db parent newname hNone
      have hkind : inode.kind = FileType.RegularFile := not_not.mp h1
      have hg : ∀ x : FileAttr,
          ((if x.ino == ino then { x with nlink := inode.nlink + 1 } else x) :
            FileAttr).ino = x.ino :=
        update_nlink_row_ino ino (inode.nlink + 1)
      refine ⟨?_, ?_, ⟨?_, ?_⟩, ?_⟩
      · show (db.dir_entries ++
          [(⟨parent, newname, inode.kind, ino⟩ : DirEnt)]).Pairwise _
        rw [List.pairwise_append]
        refine ⟨hk, by simp, ?_⟩
        intro a ha b hb
        rw [List.mem_singleton] at hb
        subst hb
        intro hc
        exact hNoKey a ha ⟨hc.1, hc.2⟩
      · exact inoPairwise_map _ hg db.inodes hu
      · intro r hr
        obtain ⟨x, hx, hgx⟩ := List.mem_map.mp hr
        have : r.ino = x.ino := by rw [← hgx]; exact hg x
        rw [this]
        exact hfi x hx
      · intro e he
        rcases List.mem_append.mp he with h4 | h4
        · exact hfe e h4
        · rw [List.mem_singleton] at h4
          subst h4
          show ino < db.next_ino
          have := hfi inode hmem
          omega
      · intro r hr hreg
        obtain ⟨x, hx, hgx⟩ := List.mem_map.mp hr
        show r.nlink = countRefs (db.dir_entries ++
          [(⟨parent, newname, inode.kind, ino⟩ : DirEnt)]) r.ino
        rw [countRefs_append, countRefs_cons, countRefs_nil]
        by_cases hxi : x.ino = ino
        · have hxe : x = inode :=
            ino_unique_mem_eq db.inodes hu x inode hx hmem (by rw [hxi, hino])
          have hr_eq : r = { x with nlink := inode.nlink + 1 } := by
            rw [← hgx, if_pos (by simp [hxi])]
          have hcnt := hinv x hx (by rw [hxe]; exact hkind)
          unfold refCount at hcnt
          have hxn : x.nlink = inode.nlink := by rw [hxe]
          rw [hr_eq]
          show inode.nlink + 1 = countRefs db.dir_entries x.ino +
            ((if ino = x.ino then 1 else 0) + 0)
          rw [if_pos hxi.symm]
          omega
        · have hr_eq : r = x := by
            rw [← hgx, if_neg (by simp [hxi])]
          rw [hr_eq] at hreg ⊢
          rw [if_neg (fun hc => hxi hc.symm)]
          have := hinv x hx hreg
          unfold refCount at this
          omega

/-- `unlink` preserves well-formedness. -/
theorem unlink_preserves_WF (db : DB) (parent : Nat) (name : String) (db1 : DB)
    (hwf : WF db) (h : unlink db parent name = SqlRes.ok ((), db1)) : WF db1 := by
  obtain ⟨hk, hu, ⟨hfi, hfe⟩, hinv⟩ := hwf
  unfold unlink at h
  cases hlk : lookup_dir_ent db parent name with
  | none => simp [hlk] at h
  | some inode =>
    simp only [hlk] at h
    have hlde := hlk
    unfold lookup_dir_ent at hlde
    cases hfde : findDirEnt db parent name with
    | none => rw [hfde] at hlde; cases hlde
    | some e =>
      rw [hfde] at hlde
      obtain ⟨hmem_i, hino⟩ := findInode_some_facts db e.child_ino inode hlde
      obtain ⟨hmem_e, hep, hen⟩ := findDirEnt_some_facts db parent name e hfde
      obtain ⟨l1, l2, hsplit, hl1, hl2⟩ := findDirEnt_split db parent name e hk hfde
      have hq : ∀ x : DirEnt, ¬(x.dir_ino = parent ∧ x.child_name = name) →
          (!(x.dir_ino == parent && x.child_name == name &&
            x.child_ino == inode.ino)) = true := by
        intro x hx
        by_cases hd1 : x.dir_ino = parent
        · by_cases hd2 : x.child_name = name
          · exact absurd ⟨hd1, hd2⟩ hx
          · simp [hd2]
        · simp [hd1]
      have hdel : db.dir_entries.filter (fun x =>
          !(x.dir_ino == parent && x.child_name == name && x.child_ino == inode.ino)) =
          l1 ++ l2 := by
        rw [hsplit, List.filter_append,
          List.filter_cons_of_neg (by simp [hep, hen, hino]),
          List.filter_eq_self.mpr (fun x hx => hq x (hl1 x hx)),
          List.filter_eq_self.mpr (fun x hx => hq x (hl2 x hx))]
      have hcnt_entries : ∀ i : Nat, i ≠ inode.ino →
          countRefs (l1 ++ l2) i = countRefs db.dir_entries i := by
        intro i hi
        rw [hsplit, countRefs_append, countRefs_append, countRefs_cons]
        rw [if_neg (by rw [← hino]; exact fun hc => hi hc.symm)]
        omega
      have hKeys : entKeysUnique { db with dir_entries := l1 ++ l2 } := by
        show (l1 ++ l2).Pairwise _
        have hk2 : (l1 ++ e :: l2).Pairwise (fun a b : DirEnt =>
            ¬(a.dir_ino = b.dir_ino ∧ a.child_name = b.child_name)) := by
          rw [← hsplit]; exact hk
        exact hk2.sublist ((l2.sublist_cons_self e).append_left l1)
      by_cases hz : inode.nlink - 1 = 0
      · rw [if_pos (by simp [hz])] at h
        simp only [SqlRes.ok.injEq, Prod.mk.injEq] at h
        obtain ⟨_, hdb1⟩ := h
        subst hdb1
        refine ⟨?_, ?_, ⟨?_, ?_⟩, ?_⟩
        · show (db.dir_entries.filter _).Pairwise _
          rw [hdel]
          exact hKeys
        · show (db.inodes.filter _).Pairwise _
          exact hu.sublist (db.inodes.filter_sublist)
        · intro r hr
          exact hfi r (List.mem_of_mem_filter hr)
        · intro x hx
          exact hfe x (List.mem_of_mem_filter hx)
        · intro r hr hreg
          have hrm := List.mem_filter.mp hr
          have hrne : r.ino ≠ inode.ino := by
            have := hrm.2
            simp only [Bool.not_eq_true', beq_eq_false_iff_ne] at this
            exact this
          show r.nlink = countRefs (db.dir_entries.filter _) r.ino
          rw [hdel, hcnt_entries r.ino hrne]
          have := hinv r hrm.1 hreg
          unfold refCount at this
          exact this
      · rw [if_neg (by simp [hz])] at h
        simp only [SqlRes.ok.injEq, Prod.mk.injEq] at h
        obtain ⟨_, hdb1⟩ := h
        subst hdb1
        have hg : ∀ x : FileAttr,
            ((if x.ino == inode.ino then { x with nlink := inode.nlink - 1 } else x) :
              FileAttr).ino = x.ino :=
          update_nlink_row_ino inode.ino (inode.nlink - 1)
        refine ⟨?_, ?_, ⟨?_, ?_⟩, ?_⟩
        · show (db.dir_entries.filter _).Pairwise _
          rw [hdel]
          exact hKeys
        · exact inoPairwise_map _ hg db.inodes hu
        · intro r hr
          obtain ⟨x, hx, hgx⟩ := List.mem_map.mp hr
          have : r.ino = x.ino := by rw [← hgx]; exact hg x
          rw [this]
          exact hfi x hx
        · intro x hx
          exact hfe x (List.mem_of_mem_filter hx)
        · intro r hr hreg
          obtain ⟨x, hx, hgx⟩ := List.mem_map.mp hr
          show r.nlink = countRefs (db.dir_entries.filter _) r.ino
          rw [hdel]
          by_cases hxi : x.ino = inode.ino
          · have hxe : x = inode := ino_unique_mem_eq db.inodes hu x inode hx hmem_i hxi
            have hr_eq : r = { x with nlink := inode.nlink - 1 } := by
              rw [← hgx, if_pos (by simp [hxi])]
            have hkind : inode.kind = FileType.RegularFile := by
              rw [← hxe]
              have : r.kind = x.kind := by rw [hr_eq]
              rw [← this]
              exact hreg
            have hcnt := hinv inode hmem_i hkind
            unfold refCount at hcnt
            rw [hsplit, countRefs_append, countRefs_cons] at hcnt
            rw [if_pos hino.symm] at hcnt
            rw [hr_eq]
            show inode.nlink - 1 = countRefs (l1 ++ l2) x.ino
            rw [hxi, countRefs_append]
            omega
          · have hr_eq : r = x := by
              rw [← hgx, if_neg (by simp [hxi])]
            rw [hr_eq] at hreg ⊢
            rw [hcnt_entries x.ino hxi]
            have := hinv x hx hreg
            unfold refCount at this
            exact this

/-- The unlink that brings `nlink` to 0 deletes the inode row, and the
`ON DELETE CASCADE` on `blocks.file_ino` removes all its blocks. -/
theorem unlink_last_link (db : DB) (parent : Nat) (name : String) (inode : FileAttr)
    (hlk : lookup_dir_ent db parent name = some inode) (hn : inode.nlink = 1) :
    ∃ db1, unlink db parent name = SqlRes.ok ((), db1) ∧
      findInode db1 inode.ino = none ∧
      ∀ b ∈ db1.blocks, b.file_ino ≠ inode.ino := by
  have hz : inode.nlink - 1 = 0 := by omega
  have hun : unlink db parent name = SqlRes.ok ((),
      { db with
        dir_entries := db.dir_entries.filter (fun x =>
          !(x.dir_ino == parent && x.child_name == name && x.child_ino == inode.ino)),
        inodes := db.inodes.filter (fun r => !(r.ino == inode.ino)),
        blocks := db.blocks.filter (fun b => !(b.file_ino == inode.ino)) }) := by
    unfold unlink
    simp only [hlk]
    rw [if_pos (by simp [hz])]
  refine ⟨_, hun, ?_, ?_⟩
  · unfold findInode
    rw [List.find?_eq_none]
    intro x hx
    have := (List.mem_filter.mp hx).2
    simp only [Bool.not_eq_true', beq_eq_false_iff_ne] at this
    simp only [beq_iff_eq]
    exact this
  · intro b hb
    have := (List.mem_filter.mp hb).2
    simp only [Bool.not_eq_true', beq_eq_false_iff_ne] at this
    exact this

/-- Mapping a function that fixes every member is the identity. -/
theorem map_eq_self_of {α : Type} (f : α → α) : ∀ l : List α,
    (∀ x ∈ l, f x = x) → l.map f = l := by
  intro l
  induction l with
  | nil => intro _; rfl
  | cons a t ih =>
    intro hal
    rw [List.map_cons, hal a (by simp), ih (fun x hx => hal x (by simp [hx]))]

/-- `rename_dir_ent` preserves well-formedness when no entry sits at the
destination key. -/
theorem rename_preserves_WF (db : DB) (parent : Nat) (name : String)
    (newparent : Nat) (newname : String) (res : Bool) (db1 : DB) (hwf : WF db)
    (hnt : findDirEnt db newparent newname = none)
    (h : rename_dir_ent db parent name newparent newname = (res, db1)) : WF db1 := by
  obtain ⟨hk, hu, ⟨hfi, hfe⟩, hinv⟩ := hwf
  have hNoKey := findDirEnt_none_facts db newparent newname hnt
  have hq : ∀ x ∈ db.dir_entries,
      (!(x.dir_ino == newparent && x.child_name == newname)) = true := by
    intro x hx
    have hnk := hNoKey x hx
    by_cases h1 : x.dir_ino = newparent
    · by_cases h2 : x.child_name = newname
      · exact absurd ⟨h1, h2⟩ hnk
      · simp [h2]
    · simp [h1]
  have hflt : db.dir_entries.filter
      (fun e => !(e.dir_ino == newparent && e.child_name == newname)) =
      db.dir_entries :=
    List.filter_eq_self.mpr hq
  simp only [rename_dir_ent] at h
  rw [hflt] at h
  by_cases hnum : (db.dir_entries.filter
      (fun e => e.dir_ino == parent && e.child_name == name)).length = 0
  · rw [if_pos (by simp [hnum])] at h
    simp only [Prod.mk.injEq] at h
    obtain ⟨_, hdb1⟩ := h
    subst hdb1
    exact ⟨hk, hu, ⟨hfi, hfe⟩, hinv⟩
  · rw [if_neg (by simp [hnum])] at h
    simp only [Prod.mk.injEq] at h
    obtain ⟨_, hdb1⟩ := h
    subst hdb1
    have hex : ∃ x ∈ db.dir_entries,
        (x.dir_ino == parent && x.child_name == name) = true := by
      cases hfil : db.dir_entries.filter
          (fun e => e.dir_ino == parent && e.child_name == name) with
      | nil => exact absurd (by rw [hfil]; rfl) hnum
      | cons a t =>
        have ha : a ∈ db.dir_entries.filter
            (fun e => e.dir_ino == parent && e.child_name == name) := by
          rw [hfil]; simp
        have := List.mem_filter.mp ha
        exact ⟨a, this.1, this.2⟩
    have hsome : ∃ e, findDirEnt db parent name = some e := by
      have : (findDirEnt db parent name).isSome := by
        unfold findDirEnt
        rw [List.find?_isSome]
        exact hex
      exact Option.isSome_iff_exists.mp this
    obtain ⟨e, hfde⟩ := hsome
    obtain ⟨hmem_e, hep, hen⟩ := findDirEnt_some_facts db parent name e hfde
    obtain ⟨l1, l2, hsplit, hl1, hl2⟩ := findDirEnt_split db parent name e hk hfde
    have hfix : ∀ x : DirEnt, ¬(x.dir_ino = parent ∧ x.child_name = name) →
        ((if x.dir_ino == parent && x.child_name == name then
          { x with dir_ino := newparent, child_name := newname } else x) : DirEnt) = x := by
      intro x hx
      by_cases h1 : x.dir_ino = parent
      · by_cases h2 : x.child_name = name
        · exact absurd ⟨h1, h2⟩ hx
        · rw [if_neg (by simp [h2])]
      · rw [if_neg (by simp [h1])]
    have hmap : db.dir_entries.map (fun x =>
        if x.dir_ino == parent && x.child_name == name then
          { x with dir_ino := newparent, child_name := newname } else x) =
        l1 ++ ({ e with dir_ino := newparent, child_name := newname } : DirEnt) :: l2 := by
      rw [hsplit, List.map_append, List.map_cons,
        map_eq_self_of _ l1 (fun x hx => hfix x (hl1 x hx)),
        map_eq_self_of _ l2 (fun x hx => hfix x (hl2 x hx)),
        if_pos (by simp [hep, hen])]
    have hmem_of_l1 : ∀ x ∈ l1, x ∈ db.dir_entries := by
      intro x hx
      rw [hsplit]
      exact List.mem_append.mpr (Or.inl hx)
    have hmem_of_l2 : ∀ x ∈ l2, x ∈ db.dir_entries := by
      intro x hx
      rw [hsplit]
      exact List.mem_append.mpr (Or.inr (List.mem_cons.mpr (Or.inr hx)))
    have hpw := hk
    unfold entKeysUnique at hpw
    rw [hsplit, List.pairwise_append, List.pairwise_cons] at hpw
    obtain ⟨hp1, ⟨hel2, hp2⟩, hcross⟩ := hpw
    refine ⟨?_, hu, ⟨hfi, ?_⟩, ?_⟩
    · show (db.dir_entries.map _).Pairwise _
      rw [hmap, List.pairwise_append, List.pairwise_cons]
      refine ⟨hp1, ⟨?_, hp2⟩, ?_⟩
      · intro x hx hc
        exact hNoKey x (hmem_of_l2 x hx) ⟨hc.1.symm, hc.2.symm⟩
      · intro a ha b hb
        rcases List.mem_cons.mp hb with hb1 | hb1
        · subst hb1
          intro hc
          exact hNoKey a (hmem_of_l1 a ha) ⟨hc.1, hc.2⟩
        · exact hcross a ha b (List.mem_cons.mpr (Or.inr hb1))
    · intro x hx
      show x.child_ino < db.next_ino
      have hx2 : x ∈ db.dir_entries.map _ := hx
      rw [hmap] at hx2
      rcases List.mem_append.mp hx2 with h1 | h1
      · exact hfe x (hmem_of_l1 x h1)
      · rcases List.mem_cons.mp h1 with h2 | h2
        · rw [h2]
          show e.child_ino < db.next_ino
          exact hfe e hmem_e
        · exact hfe x (hmem_of_l2 x h2)
    · intro r hr hreg
      show r.nlink = countRefs (db.dir_entries.map _) r.ino
      rw [hmap, countRefs_append, countRefs_cons]
      have hce : ({ e with dir_ino := newparent, child_name := newname } :
          DirEnt).child_ino = e.child_ino := rfl
      rw [hce]
      have horig := hinv r hr hreg
      unfold refCount at horig
      rw [hsplit, countRefs_append, countRefs_cons] at horig
      exact horig

/-- C7 counterexample — the claim fails for rename onto an existing
entry: `rename_dir_ent` deletes the old destination entry without
decrementing its inode's `nlink`.  In the well-formed state `dbTwo`
(root plus regular files `/a` = inode 2 and `/b` = inode 3, each with
nlink 1), renaming `/a` onto `/b` succeeds and leaves inode 3 with
`nlink = 1` but zero `dir_entries` rows referencing it, so the
link-count invariant no longer holds. -/
theorem c7_rename_overwrite_breaks_invariant :
    WF dbTwo ∧
    rename_dir_ent dbTwo 1 "a" 1 "b" = (true, dbTwoRenBroken) ∧
    ¬ nlinkInv dbTwoRenBroken := by decide

/-- C7 amended — Link-count invariant: in a well-formed database (unique
keys, unique inos, fresh allocator, and every regular file's `nlink`
equal to the number of `dir_entries` rows referencing it — `nlinkInv`),
the invariant is preserved by `create_inode` with a real parent, by
`link`, by `unlink`, and by `rename_dir_ent` when no entry occupies the
destination key (an overwriting rename breaks it — see the
counterexample); and the unlink that brings `nlink` to 0 deletes the
inode row, with all its `blocks` rows removed by the delete cascade. -/
theorem c7_link_count_amended (db : DB) (hwf : WF db) :
    (∀ parent name ft rdev attr db1, parent ≠ 0 →
      create_inode db parent name ft rdev = SqlRes.ok (attr, db1) → WF db1) ∧
    (∀ ino parent newname attr db1,
      link db ino parent newname = SqlRes.ok (attr, db1) → WF db1) ∧
    (∀ parent name db1,
      unlink db parent name = SqlRes.ok ((), db1) → WF db1) ∧
    (∀ parent name newparent newname res db1,
      findDirEnt db newparent newname = none →
      rename_dir_ent db parent name newparent newname = (res, db1) → WF db1) ∧
    (∀ parent name inode,
      lookup_dir_ent db parent name = some inode → inode.nlink = 1 →
      ∃ db1, unlink db parent name = SqlRes.ok ((), db1) ∧
        findInode db1 inode.ino = none ∧
        ∀ b ∈ db1.blocks, b.file_ino ≠ inode.ino) :=
  ⟨fun parent name ft rdev attr db1 hp h =>
      create_inode_preserves_WF db parent name ft rdev attr db1 hwf hp h,
   fun ino parent newname attr db1 h =>
      link_preserves_WF db ino parent newname attr db1 hwf h,
   fun parent name db1 h => unlink_preserves_WF db parent name db1 hwf h,
   fun parent name newparent newname res db1 hnt h =>
      rename_preserves_WF db parent name newparent newname res db1 hwf hnt h,
   fun parent name inode hlk hn => unlink_last_link db parent name inode hlk hn⟩

/-- Witness for C7 on the concrete well-formed state `dbTwo`: creating
`/c`, linking inode 2 as `/c2`, unlinking `/a`, and renaming `/a` to the
free name `/c` all preserve well-formedness, and unlinking `/a` (inode
2, nlink 1) removes the inode row and leaves no block rows for it. -/
theorem c7_link_count_witness :
    WF c7dbCreate ∧ WF c7dbLink ∧ WF c7dbUnlink ∧ WF c7dbRename ∧
    (∃ db1, unlink dbTwo 1 "a" = SqlRes.ok ((), db1) ∧
      findInode db1 2 = none ∧ ∀ b ∈ db1.blocks, b.file_ino ≠ 2) := by
  obtain ⟨hc, hl, hu, hr, hz⟩ := c7_link_count_amended dbTwo (by decide)
  exact ⟨hc 1 "c" FileType.RegularFile 0 c7attrCreate c7dbCreate (by decide) (by decide),
         hl 2 1 "c2" c7attrLink c7dbLink (by decide),
         hu 1 "a" c7dbUnlink (by decide),
         hr 1 "a" 1 "c" true c7dbRename (by decide) (by decide),
         hz 1 "a" fileAttrF (by decide) rfl⟩

end CockroachFuse
